import Mathlib

/-!
 # Verification of the contact-sync repository

Shallow embedding of `src/sync_groups.py` (the Reconciler) and
`src/audit_groups.py` (the Auditor), together with proofs of the spec's
testable properties.

Cell values are Lean `String`s; Python's `str.strip()`, `str.lower()` and
`'@' in s` are modelled by `pyStrip`, `pyLower` and `pyContainsAt` below,
working on the underlying character list.
-/

namespace ContactSync

/-- ASCII lower-casing of one character, as Python's `str.lower()` acts on
the ASCII identifiers and status words used by this program. -/
def asciiLower (c : Char) : Char :=
  if 'A' ≤ c ∧ c ≤ 'Z' then Char.ofNat (c.toNat + 32) else c

/-- Drop leading and trailing whitespace from a character list
(model of Python's `str.strip()`). -/
def stripChars (l : List Char) : List Char :=
  ((l.dropWhile Char.isWhitespace).reverse.dropWhile Char.isWhitespace).reverse

/-- Model of Python's `s.strip()`. -/
def pyStrip (s : String) : String := ⟨stripChars s.data⟩

/-- Model of Python's `s.lower()`. -/
def pyLower (s : String) : String := ⟨s.data.map asciiLower⟩

/-- Model of Python's `'@' in s` (used by the Auditor's group-id filter). -/
def pyContainsAt (s : String) : Bool := s.data.contains '@'

/-! ## Membership actions and directory state

`src/sync_groups.py` issues one Admin-SDK call per (group, user) pair:
`members().insert` (an ADD) or `members().delete` (a REMOVE). The external
GroupDirectory's documented semantics (spec section 6) are idempotent
add/remove on the membership set; we model the membership state as a
Boolean-valued function on (group identifier, user identifier) pairs. -/

/-- A MembershipAction: ADD or REMOVE of a user in a group. -/
inductive Action : Type
  | add (group user : String)
  | remove (group user : String)
deriving DecidableEq, Repr

/-- The (group, user) pair an action targets. -/
def Action.pair : Action → String × String
  | .add g u => (g, u)
  | .remove g u => (g, u)

/-- The user an action targets. -/
def Action.user : Action → String
  | .add _ u => u
  | .remove _ u => u

/-- Whether the action is an ADD. -/
def Action.isAdd : Action → Bool
  | .add _ _ => true
  | .remove _ _ => false

/-- Directory membership state: which (group, user) pairs are members. -/
def DirState : Type := String × String → Bool

/-- Idempotent application of one action to the directory state
(the GroupDirectory collaborator's documented add/remove semantics). -/
def applyAction (st : DirState) (a : Action) : DirState :=
  fun p => if a.pair = p then a.isAdd else st p

/-- Apply a list of actions in order. -/
def applyActions (st : DirState) (acts : List Action) : DirState :=
  acts.foldl applyAction st

/-- The last action in the list that targets the pair `p`, if any. -/
def lastOn (p : String × String) : List Action → Option Action
  | [] => none
  | a :: rest =>
    match lastOn p rest with
    | some b => some b
    | none => if a.pair = p then some a else none

theorem lastOn_cons (p : String × String) (a : Action) (l : List Action) :
    lastOn p (a :: l) =
      match lastOn p l with
      | some b => some b
      | none => if a.pair = p then some a else none := rfl

theorem applyActions_eq_lastOn (acts : List Action) (st : DirState)
    (p : String × String) :
    applyActions st acts p =
      match lastOn p acts with
      | some a => a.isAdd
      | none => st p := by
  induction acts generalizing st with
  | nil => rfl
  | cons a rest ih =>
    show applyActions (applyAction st a) rest p = _
    rw [ih, lastOn_cons]
    cases h : lastOn p rest with
    | some b => simp
    | none =>
      show applyAction st a p = _
      unfold applyAction
      by_cases hp : a.pair = p <;> simp [hp]

theorem lastOn_append (p : String × String) (l₁ l₂ : List Action) :
    lastOn p (l₁ ++ l₂) =
      match lastOn p l₂ with
      | some b => some b
      | none => lastOn p l₁ := by
  induction l₁ with
  | nil =>
    rw [List.nil_append]
    cases h : lastOn p l₂ <;> simp [lastOn]
  | cons a rest ih =>
    rw [List.cons_append, lastOn_cons, ih, lastOn_cons]
    cases h : lastOn p l₂ <;> cases h' : lastOn p rest <;> simp

theorem lastOn_eq_none_of_not_touch (p : String × String) (l : List Action)
    (h : ∀ a ∈ l, a.pair ≠ p) : lastOn p l = none := by
  induction l with
  | nil => rfl
  | cons a rest ih =>
    have hr : lastOn p rest = none := ih fun b hb => h b (by simp [hb])
    rw [lastOn_cons, hr]
    simp [h a (by simp)]

/-! ## The Reconciler's reading of the table (`src/sync_groups.py`, `main`)

A row is a list of cell strings (rows read from `MAIN!A2:L` may be shorter
than the full width). The user identifier is `row[0].strip()`, the status
`row[1].strip().lower()` defaulting to `'inactive'` when the row has no
second cell, and the group cells are everything from column index 2 on.
Python `set`s are modelled as deduplicated lists (`List.dedup`): for every
property proved here only membership, absence of duplicates, and
one-iteration-per-element matter, never the iteration order. -/

/-- The trimmed, non-empty group cells of one row, from column index 2 on
(`row[2:]` scan in steps 3 and 4 of `main`). -/
def cellGroups (row : List String) : List String :=
  ((row.drop 2).map pyStrip).filter (fun s => s ≠ "")

/-- The master list of groups: every trimmed non-empty cell from column
index 2 onward across all rows (`all_known_groups`). -/
def allKnownGroups (rows : List (List String)) : List String :=
  (rows.flatMap cellGroups).dedup

/-- The value of `row[0].strip()`; the empty string for an empty row (an empty row is
skipped by `main` exactly as a row with a blank first cell is). -/
def rowUser (row : List String) : String :=
  pyStrip (row.headD "")

/-- The value of `row[1].strip().lower() if len(row) > 1 else 'inactive'`. -/
def rowStatus (row : List String) : String :=
  match row with
  | _ :: s :: _ => pyLower (pyStrip s)
  | _ => "inactive"

/-- The row's desired group set (`desired_groups`). -/
def desiredGroups (row : List String) : List String :=
  (cellGroups row).dedup

/-- The actions the LOGIC ENGINE issues for one row, given the master group
list: nothing for a blank user; a REMOVE from every known group when the
status is `'inactive'`; ADDs to the desired groups followed by REMOVEs from
the remaining known groups when the status is `'active'`; nothing for any
other status (no `else` branch exists in the source). -/
def rowActions (known : List String) (row : List String) : List Action :=
  if rowUser row = "" then []
  else if rowStatus row = "inactive" then
    known.map fun g => .remove g (rowUser row)
  else if rowStatus row = "active" then
    ((desiredGroups row).map fun g => .add g (rowUser row)) ++
      ((known.filter fun g => decide (g ∉ desiredGroups row)).map fun g =>
        .remove g (rowUser row))
  else []

/-- All actions of one Reconciler run, row by row (step 4 of `main`). -/
def syncActions (rows : List (List String)) : List Action :=
  rows.flatMap (rowActions (allKnownGroups rows))

/-! ## The protected-user check

Modelled from the spec: the ProtectedSet — "a fixed set of user identifiers
that must never be targeted by a REMOVE action, checked immediately before
the action is issued", with the skip reported — appears in the spec's data
model and Reconciler contract but in no file under `src/`
(`src/sync_groups.py` removes unconditionally). We model the Reconciler
variant with the check: every would-be REMOVE of a protected user becomes a
reported skip at the point of issue; an empty ProtectedSet recovers
`src/sync_groups.py` exactly (`issuedActions_nil_prot` below). -/

/-- An observable event of the protected Reconciler: an issued directory
call, or a reported skip of a REMOVE on a protected user. -/
inductive Event : Type
  | issue (a : Action)
  | skipProtected (group user : String)
deriving DecidableEq, Repr

/-- Modelled from the spec: the check "immediately before the action is
issued" — a REMOVE of a protected user becomes a reported skip. -/
def removeEvent (prot : List String) (g u : String) : Event :=
  if u ∈ prot then .skipProtected g u else .issue (.remove g u)

/-- One row's events under the protected Reconciler (same control flow as
`rowActions`, with the protected check at each REMOVE site). -/
def rowEvents (prot known : List String) (row : List String) : List Event :=
  if rowUser row = "" then []
  else if rowStatus row = "inactive" then
    known.map fun g => removeEvent prot g (rowUser row)
  else if rowStatus row = "active" then
    ((desiredGroups row).map fun g => .issue (.add g (rowUser row))) ++
      ((known.filter fun g => decide (g ∉ desiredGroups row)).map fun g =>
        removeEvent prot g (rowUser row))
  else []

/-- All events of one protected-Reconciler run. -/
def syncEvents (prot : List String) (rows : List (List String)) : List Event :=
  rows.flatMap (rowEvents prot (allKnownGroups rows))

/-- The directory calls the protected Reconciler actually issues. -/
def issuedActions (prot : List String) (rows : List (List String)) : List Action :=
  (syncEvents prot rows).filterMap fun e =>
    match e with
    | .issue a => some a
    | .skipProtected _ _ => none

/-- What the protected check does to one abstract action. -/
def protGuard (prot : List String) (a : Action) : Event :=
  match a with
  | .add g u => .issue (.add g u)
  | .remove g u => removeEvent prot g u

/-! ## Per-call outcomes (`safe_add` / `safe_remove`)

Each directory call either succeeds or raises an `HttpError` with an HTTP
status; `safe_add` and `safe_remove` catch the error and print one line per
distinct branch of the source, never re-raising. The environment is an
oracle assigning an outcome to each call. -/

/-- Result of one Admin-SDK call: success, or an `HttpError` status. -/
inductive ApiResult : Type
  | ok
  | http (status : Nat)
deriving DecidableEq, Repr

/-- The distinct report branches of `safe_add` / `safe_remove`. -/
inductive LogLine : Type
  | success
  | alreadyMember
  | groupNotFound
  | notMember
  | otherError (status : Nat)
deriving DecidableEq, Repr

/-- Classification by `safe_add`: 409 Conflict → "Already a member."; 404 → group-not-found
warning; any other `HttpError` → generic error line. Never re-raises. -/
def safe_add (r : ApiResult) : LogLine :=
  match r with
  | .ok => .success
  | .http 409 => .alreadyMember
  | .http 404 => .groupNotFound
  | .http s => .otherError s

/-- Classification by `safe_remove`: 404 → "Not a member (or group doesn't exist)."; any
other `HttpError` → generic error line. Never re-raises. -/
def safe_remove (r : ApiResult) : LogLine :=
  match r with
  | .ok => .success
  | .http 404 => .notMember
  | .http s => .otherError s

/-- Report branches that the scripts treat as a successful, expected
outcome (they print no "Error:" line): plain success, ADD on an existing
member, REMOVE of a non-member. -/
def LogLine.isExpectedSuccess : LogLine → Bool
  | .success => true
  | .alreadyMember => true
  | .notMember => true
  | .groupNotFound => false
  | .otherError _ => false

/-- Dispatch one call and classify the outcome as the source does. -/
def callPair (oracle : Action → ApiResult) (a : Action) : LogLine :=
  match a with
  | .add _ _ => safe_add (oracle a)
  | .remove _ _ => safe_remove (oracle a)

/-- One row of the Reconciler run against an outcome oracle: the calls made
and the line reported for each, mirroring the LOGIC ENGINE's loops with
`safe_add`/`safe_remove` inlined. -/
def runRow (oracle : Action → ApiResult) (known : List String)
    (row : List String) : List (Action × LogLine) :=
  if rowUser row = "" then []
  else if rowStatus row = "inactive" then
    known.map fun g =>
      ((.remove g (rowUser row) : Action),
        safe_remove (oracle (.remove g (rowUser row))))
  else if rowStatus row = "active" then
    ((desiredGroups row).map fun g =>
      ((.add g (rowUser row) : Action), safe_add (oracle (.add g (rowUser row))))) ++
      ((known.filter fun g => decide (g ∉ desiredGroups row)).map fun g =>
        ((.remove g (rowUser row) : Action),
          safe_remove (oracle (.remove g (rowUser row)))))
  else []

/-- The full Reconciler run against an outcome oracle: the trace of every
call made, with its reported outcome. -/
def runSync (oracle : Action → ApiResult) (rows : List (List String)) :
    List (Action × LogLine) :=
  rows.flatMap (runRow oracle (allKnownGroups rows))

/-! ## The matrix-layout Reconciler variant

Modelled from the spec: the matrix layout — per-group "yes" cells under a
group-column header, user identifier at column index 3, status at index 4 —
appears in the spec (sections 3, 4.1 and the scenario of section 8) but no
file under `src/` implements it (`src/sync_groups.py` is the list layout).
Per the spec's GroupColumnMap, a header column is a group column exactly
when its cell is email-shaped; a cell marks membership when it is "yes"
after trimming and case-folding; for an active user every group column gets
exactly one action (ADD on "yes", else REMOVE), for any other status every
group column gets a REMOVE; REMOVEs of protected users are skipped. -/

/-- Email-shaped test used for group identifiers (`'@' in s` on a non-empty
string, as the Auditor's filter spells it). -/
def isEmailShaped (s : String) : Bool :=
  !(s = "") && pyContainsAt s

/-- Modelled from the spec: the GroupColumnMap — the (column index, group
identifier) pairs of the email-shaped header cells. -/
def groupColumns (header : List String) : List (Nat × String) :=
  header.enum.filter fun gc => isEmailShaped gc.2

/-- Modelled from the spec: one data row of the matrix-layout Reconciler
(user at index 3, status at index 4, membership cell looked up at each
group column's index). -/
def matrixRowActions (prot : List String) (cols : List (Nat × String))
    (row : List String) : List Action :=
  if pyStrip (row.getD 3 "") = "" then []
  else if pyLower (pyStrip (row.getD 4 "")) = "active" then
    cols.flatMap fun gc =>
      if pyLower (pyStrip (row.getD gc.1 "")) = "yes" then
        [.add gc.2 (pyStrip (row.getD 3 ""))]
      else if pyStrip (row.getD 3 "") ∈ prot then []
      else [.remove gc.2 (pyStrip (row.getD 3 ""))]
  else
    cols.flatMap fun gc =>
      if pyStrip (row.getD 3 "") ∈ prot then []
      else [.remove gc.2 (pyStrip (row.getD 3 ""))]

/-- Modelled from the spec: the matrix-layout Reconciler over a header row
and the data rows below it. -/
def matrixActions (prot : List String) (header : List String)
    (dataRows : List (List String)) : List Action :=
  dataRows.flatMap (matrixRowActions prot (groupColumns header))

/-! ## The Auditor (`src/audit_groups.py`, `main`)

The Auditor reads the group identifiers from the MAIN header row, fetches
each email-shaped group's members (an oracle: a member list, or a fetch
failure caught by the `except` clause), accumulates `audit_data`, then
clears `AUDIT!A1:Z1000` and writes `audit_data` at `AUDIT!A1`. -/

/-- One directory member record; every field is optional, read with
`m.get(key, '')`. `type_` embeds the `type` attribute (a Lean keyword). -/
structure Member : Type where
  email : Option String
  role : Option String
  type_ : Option String
deriving DecidableEq, Repr

/-- One audit row: `[group_email, m.get('email',''), m.get('role',''),
m.get('type','')]`. -/
def memberRow (g : String) (m : Member) : List String :=
  [g, m.email.getD "", m.role.getD "", m.type_.getD ""]

/-- The fixed audit header row. -/
def auditHeader : List String :=
  ["Group Email", "Member Email", "Role", "Type"]

/-- The skip test of the fetch loop:
`if not group_email or '@' not in group_email: continue`. -/
def validGroup (g : String) : Bool :=
  !(g = "") && pyContainsAt g

/-- The member rows accumulated by the fetch loop: per header cell, nothing
when the cell is skipped or its fetch raises (the `except` clause logs and
continues), else one row per member. -/
def auditRows (fetch : String → Except Unit (List Member)) :
    List String → List (List String)
  | [] => []
  | g :: gs =>
    (if validGroup g then
      match fetch g with
      | .ok ms => ms.map (memberRow g)
      | .error _ => []
    else []) ++ auditRows fetch gs

/-- The full grid the Auditor writes: the header row, then the accumulated
member rows. -/
def auditData (fetch : String → Except Unit (List Member))
    (groupEmails : List String) : List (List String) :=
  auditHeader :: auditRows fetch groupEmails

/-- The number of rows one header cell contributes to the report: zero when
it is not email-shaped or its fetch fails, else its member count. -/
def groupContribution (fetch : String → Except Unit (List Member))
    (g : String) : Nat :=
  if validGroup g then
    match fetch g with
    | .ok ms => ms.length
    | .error _ => 0
  else 0

/-! ### The destination sheet write

The AUDIT sheet is a grid of cells addressed by 0-based (row, column); the
cleared range `A1:Z1000` covers rows 0–999 and columns 0–25, and the update
writes `audit_data` anchored at `A1`, touching exactly the cells the grid
covers (rows may be ragged). -/

/-- The AUDIT sheet's cell contents. -/
def Sheet : Type := Nat → Nat → String

/-- The effect of `values().clear` on `AUDIT!A1:Z1000`. -/
def clearRange (s : Sheet) : Sheet :=
  fun r c => if r < 1000 ∧ c < 26 then "" else s r c

/-- The effect of `values().update` anchored at `A1`: cell (r, c) takes the grid value
when row r of the grid has a cell c, and is left alone otherwise. -/
def writeAt (s : Sheet) (grid : List (List String)) : Sheet :=
  fun r c =>
    if c < (grid.getD r []).length then (grid.getD r []).getD c ""
    else s r c

/-- Step 3 of the Auditor's `main`: clear the destination, then write. -/
def auditWrite (s : Sheet) (grid : List (List String)) : Sheet :=
  writeAt (clearRange s) grid

/-! ## Basic lemmas -/

theorem Action.pair_user (a : Action) : a.pair.2 = a.user := by
  cases a <;> rfl

theorem rowEvents_eq_map (prot known row : List String) :
    rowEvents prot known row = (rowActions known row).map (protGuard prot) := by
  unfold rowEvents rowActions
  by_cases h0 : rowUser row = ""
  · rw [if_pos h0, if_pos h0, List.map_nil]
  rw [if_neg h0, if_neg h0]
  by_cases h1 : rowStatus row = "inactive"
  · rw [if_pos h1, if_pos h1, List.map_map]
    rfl
  rw [if_neg h1, if_neg h1]
  by_cases h2 : rowStatus row = "active"
  · rw [if_pos h2, if_pos h2, List.map_append, List.map_map, List.map_map]
    rfl
  · rw [if_neg h2, if_neg h2, List.map_nil]

theorem flatMap_rowEvents (prot known : List String) (rows : List (List String)) :
    rows.flatMap (rowEvents prot known) =
      (rows.flatMap (rowActions known)).map (protGuard prot) := by
  have h : rowEvents prot known = fun r => (rowActions known r).map (protGuard prot) :=
    funext (rowEvents_eq_map prot known)
  rw [h, List.map_flatMap]

theorem syncEvents_eq_map (prot : List String) (rows : List (List String)) :
    syncEvents prot rows = (syncActions rows).map (protGuard prot) :=
  flatMap_rowEvents prot (allKnownGroups rows) rows

/-- Extract the issued action of an event, if any. -/
def keepIssued : Event → Option Action
  | .issue a => some a
  | .skipProtected _ _ => none

theorem issuedActions_eq_filterMap (prot : List String) (rows : List (List String)) :
    issuedActions prot rows =
      (syncActions rows).filterMap (fun a => keepIssued (protGuard prot a)) := by
  show (syncEvents prot rows).filterMap keepIssued = _
  rw [syncEvents_eq_map, List.filterMap_map]
  rfl

theorem keepIssued_protGuard_nil (a : Action) :
    keepIssued (protGuard [] a) = some a := by
  cases a <;> simp [keepIssued, protGuard, removeEvent]

/-- With an empty ProtectedSet the protected Reconciler issues exactly the
calls of `src/sync_groups.py`. -/
theorem issuedActions_nil_prot (rows : List (List String)) :
    issuedActions [] rows = syncActions rows := by
  rw [issuedActions_eq_filterMap]
  have h : (fun a => keepIssued (protGuard [] a)) = fun a => some a :=
    funext fun a => keepIssued_protGuard_nil a
  rw [h]
  exact List.filterMap_some _

/-- C2. Protected-user invariant: for every user identifier in the
ProtectedSet, the protected Reconciler never issues a REMOVE, for any
status value and any group; instead, exactly where the unprotected engine
would remove the user, a skip is reported at the point of issue. -/
theorem claim_C2 (prot : List String) (rows : List (List String))
    (g u : String) (hu : u ∈ prot) :
    Event.issue (.remove g u) ∉ syncEvents prot rows ∧
      (Event.skipProtected g u ∈ syncEvents prot rows ↔
        Action.remove g u ∈ syncActions rows) := by
  rw [syncEvents_eq_map, List.mem_map]
  constructor
  · rintro ⟨a, _, ha⟩
    cases a with
    | add g' u' => simp [protGuard] at ha
    | remove g' u' =>
      by_cases hp : u' ∈ prot <;> simp [protGuard, removeEvent, hp] at ha
      exact hp (ha.2 ▸ hu)
  · rw [List.mem_map]
    constructor
    · rintro ⟨a, hmem, ha⟩
      cases a with
      | add g' u' => simp [protGuard] at ha
      | remove g' u' =>
        by_cases hp : u' ∈ prot <;> simp [protGuard, removeEvent, hp] at ha
        exact ha.1 ▸ ha.2 ▸ hmem
    · intro hmem
      exact ⟨.remove g u, hmem, by simp [protGuard, removeEvent, hu]⟩

/-- C4. Reconciler idempotence: applying one run's actions twice to any
initial directory state gives the same final membership state as applying
them once (each call being idempotent, the last action on a pair decides
it). -/
theorem claim_C4 (rows : List (List String)) (st : DirState) :
    applyActions (applyActions st (syncActions rows)) (syncActions rows) =
      applyActions st (syncActions rows) := by
  funext p
  rw [applyActions_eq_lastOn (syncActions rows)
    (applyActions st (syncActions rows)) p]
  cases h : lastOn p (syncActions rows) with
  | some a => rw [applyActions_eq_lastOn, h]
  | none => rw [applyActions_eq_lastOn, h]

/-! ## Per-pair error handling -/

theorem runRow_eq_map (oracle : Action → ApiResult) (known row : List String) :
    runRow oracle known row =
      (rowActions known row).map fun a => (a, callPair oracle a) := by
  unfold runRow rowActions
  by_cases h0 : rowUser row = ""
  · rw [if_pos h0, if_pos h0, List.map_nil]
  rw [if_neg h0, if_neg h0]
  by_cases h1 : rowStatus row = "inactive"
  · rw [if_pos h1, if_pos h1, List.map_map]
    rfl
  rw [if_neg h1, if_neg h1]
  by_cases h2 : rowStatus row = "active"
  · rw [if_pos h2, if_pos h2, List.map_append, List.map_map, List.map_map]
    rfl
  · rw [if_neg h2, if_neg h2, List.map_nil]

theorem runSync_eq_map (oracle : Action → ApiResult) (rows : List (List String)) :
    runSync oracle rows =
      (syncActions rows).map fun a => (a, callPair oracle a) := by
  have h : runRow oracle (allKnownGroups rows) =
      fun r => (rowActions (allKnownGroups rows) r).map fun a => (a, callPair oracle a) :=
    funext (runRow_eq_map oracle (allKnownGroups rows))
  show rows.flatMap (runRow oracle (allKnownGroups rows)) =
    (rows.flatMap (rowActions (allKnownGroups rows))).map fun a => (a, callPair oracle a)
  rw [h, List.map_flatMap]

/-- C5. Per-pair error handling: against any oracle of per-call outcomes,
the run makes exactly the calls `syncActions` lists, once each and in
order — so no outcome (including any `HttpError`) aborts later pairs or
retries a call; each call's reported line is a function of that call's own
outcome alone; and ADD with a 409 Conflict and REMOVE with a 404 are
reported through the expected-success branches, not the error branches. -/
theorem claim_C5 (oracle : Action → ApiResult) (rows : List (List String)) :
    (runSync oracle rows).map Prod.fst = syncActions rows
    ∧ (∀ e ∈ runSync oracle rows, e.2 = callPair oracle e.1)
    ∧ safe_add (.http 409) = .alreadyMember
    ∧ safe_remove (.http 404) = .notMember
    ∧ LogLine.isExpectedSuccess .alreadyMember = true
    ∧ LogLine.isExpectedSuccess .notMember = true := by
  refine ⟨?_, ?_, rfl, rfl, rfl, rfl⟩
  · rw [runSync_eq_map, List.map_map]
    exact List.map_id _
  · intro e he
    rw [runSync_eq_map, List.mem_map] at he
    obtain ⟨a, _, rfl⟩ := he
    rfl

/-! ## Final-state analysis for one user's row -/

theorem lastOn_map_remove (g u : String) (l : List String) :
    lastOn (g, u) (l.map fun g' => .remove g' u) =
      if g ∈ l then some (.remove g u) else none := by
  induction l with
  | nil => rfl
  | cons g₀ rest ih =>
    rw [List.map_cons, lastOn_cons, ih]
    by_cases hg : g ∈ rest
    · simp [hg]
    · by_cases h0 : g₀ = g
      · subst h0
        simp [hg, Action.pair]
      · simp [hg, h0, Action.pair, Ne.symm h0]

theorem lastOn_map_add (g u : String) (l : List String) :
    lastOn (g, u) (l.map fun g' => .add g' u) =
      if g ∈ l then some (.add g u) else none := by
  induction l with
  | nil => rfl
  | cons g₀ rest ih =>
    rw [List.map_cons, lastOn_cons, ih]
    by_cases hg : g ∈ rest
    · simp [hg]
    · by_cases h0 : g₀ = g
      · subst h0
        simp [hg, Action.pair]
      · simp [hg, h0, Action.pair, Ne.symm h0]

theorem user_of_mem_rowActions {known row : List String} {a : Action}
    (h : a ∈ rowActions known row) : a.user = rowUser row := by
  unfold rowActions at h
  by_cases h0 : rowUser row = ""
  · rw [if_pos h0] at h
    exact absurd h (List.not_mem_nil a)
  rw [if_neg h0] at h
  by_cases h1 : rowStatus row = "inactive"
  · rw [if_pos h1] at h
    obtain ⟨g, _, rfl⟩ := List.mem_map.1 h
    rfl
  rw [if_neg h1] at h
  by_cases h2 : rowStatus row = "active"
  · rw [if_pos h2] at h
    rcases List.mem_append.1 h with h | h
    · obtain ⟨g, _, rfl⟩ := List.mem_map.1 h
      rfl
    · obtain ⟨g, _, rfl⟩ := List.mem_map.1 h
      rfl
  · rw [if_neg h2] at h
    exact absurd h (List.not_mem_nil a)

theorem lastOn_rowActions_other_user (known r₀ : List String) (g u : String)
    (h : rowUser r₀ ≠ u) :
    lastOn (g, u) (rowActions known r₀) = none := by
  apply lastOn_eq_none_of_not_touch
  intro a ha hpair
  apply h
  rw [← user_of_mem_rowActions ha, ← Action.pair_user, hpair]

theorem lastOn_flatMap_unique (known : List String) (u : String)
    (r : List String) (rows' : List (List String))
    (huniq : ∀ r' ∈ rows', rowUser r' = u → r' = r) (g : String) :
    lastOn (g, u) (rows'.flatMap (rowActions known)) =
      if r ∈ rows' then lastOn (g, u) (rowActions known r) else none := by
  induction rows' with
  | nil => simp [lastOn]
  | cons r₀ rest ih =>
    rw [List.flatMap_cons, lastOn_append,
      ih fun r' h => huniq r' (List.mem_cons_of_mem _ h)]
    by_cases hr0 : r₀ = r
    · subst hr0
      by_cases hmem : r₀ ∈ rest
      · rw [if_pos hmem, if_pos (List.mem_cons_self ..)]
        cases hL : lastOn (g, u) (rowActions known r₀) <;> simp [hL]
      · rw [if_neg hmem, if_pos (List.mem_cons_self ..)]
    · have hne : rowUser r₀ ≠ u := fun he =>
        hr0 (huniq r₀ (List.mem_cons_self ..) he)
      have hnone := lastOn_rowActions_other_user known r₀ g u hne
      by_cases hmem : r ∈ rest
      · rw [if_pos hmem, if_pos (List.mem_cons_of_mem _ hmem)]
        cases hL : lastOn (g, u) (rowActions known r) <;> simp [hL, hnone]
      · have : r ∉ r₀ :: rest := by
          simp only [List.mem_cons, not_or]
          exact ⟨fun h => hr0 h.symm, hmem⟩
        rw [if_neg hmem, if_neg this]
        exact hnone

theorem lastOn_filterMap_keep (p : String × String) (f : Action → Option Action)
    (hdrop : ∀ a, f a = none ∨ f a = some a)
    (hkeep : ∀ a, a.pair = p → f a = some a) (l : List Action) :
    lastOn p (l.filterMap f) = lastOn p l := by
  induction l with
  | nil => rfl
  | cons a rest ih =>
    rw [List.filterMap_cons]
    rcases hdrop a with hfa | hfa
    · simp only [hfa]
      have hp : a.pair ≠ p := fun hp => by
        rw [hkeep a hp] at hfa
        exact Option.noConfusion hfa
      rw [ih, lastOn_cons]
      cases h : lastOn p rest <;> simp [hp]
    · simp only [hfa]
      rw [lastOn_cons, lastOn_cons, ih]

theorem lastOn_issuedActions (prot : List String) (rows : List (List String))
    (g u : String) (hprot : u ∉ prot) :
    lastOn (g, u) (issuedActions prot rows) = lastOn (g, u) (syncActions rows) := by
  rw [issuedActions_eq_filterMap]
  apply lastOn_filterMap_keep
  · intro a
    cases a with
    | add g' u' => exact Or.inr rfl
    | remove g' u' =>
      by_cases hp : u' ∈ prot
      · exact Or.inl (by simp [protGuard, removeEvent, hp, keepIssued])
      · exact Or.inr (by simp [protGuard, removeEvent, hp, keepIssued])
  · intro a hpair
    cases a with
    | add g' u' => rfl
    | remove g' u' =>
      have hu' : u' = u := by
        have := congrArg Prod.snd hpair
        simpa [Action.pair] using this
      subst hu'
      simp [protGuard, removeEvent, hprot, keepIssued]

theorem lastOn_rowActions_inactive (known r : List String) (g : String)
    (hu : rowUser r ≠ "") (hs : rowStatus r = "inactive") :
    lastOn (g, rowUser r) (rowActions known r) =
      if g ∈ known then some (.remove g (rowUser r)) else none := by
  unfold rowActions
  rw [if_neg hu, if_pos hs]
  exact lastOn_map_remove g (rowUser r) known

theorem lastOn_rowActions_active (known r : List String) (g : String)
    (hu : rowUser r ≠ "") (hs : rowStatus r = "active") :
    lastOn (g, rowUser r) (rowActions known r) =
      if g ∈ desiredGroups r then some (.add g (rowUser r))
      else if g ∈ known then some (.remove g (rowUser r)) else none := by
  have hne : rowStatus r ≠ "inactive" := by
    rw [hs]
    decide
  unfold rowActions
  rw [if_neg hu, if_neg hne, if_pos hs, lastOn_append, lastOn_map_remove,
    lastOn_map_add]
  by_cases hd : g ∈ desiredGroups r
  · have : g ∉ known.filter fun g' => decide (g' ∉ desiredGroups r) := by
      simp [List.mem_filter, hd]
    simp [this, hd]
  · by_cases hk : g ∈ known
    · have : g ∈ known.filter fun g' => decide (g' ∉ desiredGroups r) := by
        simp [List.mem_filter, hd, hk]
      simp [this, hd, hk]
    · have : g ∉ known.filter fun g' => decide (g' ∉ desiredGroups r) := by
        simp [List.mem_filter, hk]
      simp [this, hd, hk]

theorem lastOn_rowActions_other_status (known r : List String) (g u : String)
    (h1 : rowStatus r ≠ "inactive") (h2 : rowStatus r ≠ "active") :
    lastOn (g, u) (rowActions known r) = none := by
  unfold rowActions
  by_cases h0 : rowUser r = ""
  · rw [if_pos h0]
    rfl
  · rw [if_neg h0, if_neg h1, if_neg h2]
    rfl

/-- The final membership of the pair (g, row's user) after a whole
protected-Reconciler run, when the user is not protected and no other row
carries the same user identifier. -/
theorem final_state_of_unique_row (prot : List String)
    (rows : List (List String)) (r : List String) (st : DirState) (g : String)
    (hr : r ∈ rows) (hprot : rowUser r ∉ prot)
    (huniq : ∀ r' ∈ rows, rowUser r' = rowUser r → r' = r) :
    applyActions st (issuedActions prot rows) (g, rowUser r) =
      match lastOn (g, rowUser r) (rowActions (allKnownGroups rows) r) with
      | some a => a.isAdd
      | none => st (g, rowUser r) := by
  rw [applyActions_eq_lastOn, lastOn_issuedActions prot rows g (rowUser r) hprot]
  show (match lastOn (g, rowUser r) (rows.flatMap (rowActions (allKnownGroups rows))) with
    | some a => a.isAdd
    | none => st (g, rowUser r)) = _
  rw [lastOn_flatMap_unique (allKnownGroups rows) (rowUser r) r rows huniq g,
    if_pos hr]

/-- C1 (amended). For every data row with a non-empty trimmed user
identifier that is not protected and appears in no other row: if the status
is "active", the user's final membership among the known groups is exactly
the row's desired group set; if the status is "inactive" (which includes an
absent status cell, defaulted to "inactive"), the user ends in none of the
known groups; a present but unrecognized status issues no action for the
row, leaving the user's membership unchanged. -/
theorem claim_C1 (prot : List String) (rows : List (List String))
    (r : List String) (st : DirState) (hr : r ∈ rows) (hu : rowUser r ≠ "")
    (hprot : rowUser r ∉ prot)
    (huniq : ∀ r' ∈ rows, rowUser r' = rowUser r → r' = r) :
    (rowStatus r = "active" →
      (allKnownGroups rows).filter
          (fun g => applyActions st (issuedActions prot rows) (g, rowUser r)) =
        (allKnownGroups rows).filter fun g => decide (g ∈ desiredGroups r))
    ∧ (rowStatus r = "inactive" →
      (allKnownGroups rows).filter
          (fun g => applyActions st (issuedActions prot rows) (g, rowUser r)) = [])
    ∧ (rowStatus r ≠ "active" → rowStatus r ≠ "inactive" →
      ∀ g : String,
        applyActions st (issuedActions prot rows) (g, rowUser r) =
          st (g, rowUser r)) := by
  refine ⟨fun hs => ?_, fun hs => ?_, fun h2 h1 g => ?_⟩
  · apply List.filter_congr
    intro g hg
    rw [final_state_of_unique_row prot rows r st g hr hprot huniq,
      lastOn_rowActions_active (allKnownGroups rows) r g hu hs]
    by_cases hd : g ∈ desiredGroups r
    · simp [hd, Action.isAdd]
    · simp [hd, hg, Action.isAdd]
  · rw [List.filter_eq_nil_iff]
    intro g hg
    rw [final_state_of_unique_row prot rows r st g hr hprot huniq,
      lastOn_rowActions_inactive (allKnownGroups rows) r g hu hs]
    simp [hg, Action.isAdd]
  · rw [final_state_of_unique_row prot rows r st g hr hprot huniq,
      lastOn_rowActions_other_status (allKnownGroups rows) r g (rowUser r) h1 h2]

/-- C3 (amended). For a data row with a non-empty trimmed user identifier:
when the status cell is absent (the row has at most one cell), the status
defaults to "inactive" and the run issues a REMOVE of that user from every
group in the known-group universe; when a status cell is present but its
trimmed, case-folded value is neither "active" nor "inactive", the row
produces no actions at all. -/
theorem claim_C3 (rows : List (List String)) (r : List String)
    (hr : r ∈ rows) (hu : rowUser r ≠ "") :
    (r.length ≤ 1 →
      ∀ g ∈ allKnownGroups rows, Action.remove g (rowUser r) ∈ syncActions rows)
    ∧ (rowStatus r ≠ "active" → rowStatus r ≠ "inactive" →
      rowActions (allKnownGroups rows) r = []) := by
  constructor
  · intro hlen g hg
    have hs : rowStatus r = "inactive" := by
      cases r with
      | nil => rfl
      | cons x t =>
        cases t with
        | nil => rfl
        | cons y t' =>
          rw [List.length_cons, List.length_cons] at hlen
          omega
    unfold syncActions
    refine List.mem_flatMap.2 ⟨r, hr, ?_⟩
    unfold rowActions
    rw [if_neg hu, if_pos hs]
    exact List.mem_map_of_mem _ hg
  · intro h2 h1
    unfold rowActions
    rw [if_neg hu, if_neg h1, if_neg h2]

/-- C6. Matrix-layout scenario: with header
`["", "", "", "", "", "g1@x.org", "g2@x.org"]` and data row
`["", "", "", "u1@x.org", "active", "yes", ""]`, the matrix-layout
Reconciler issues exactly ADD(g1@x.org, u1@x.org) then
REMOVE(g2@x.org, u1@x.org). -/
theorem claim_C6 :
    matrixActions [] ["", "", "", "", "", "g1@x.org", "g2@x.org"]
        [["", "", "", "u1@x.org", "active", "yes", ""]] =
      [.add "g1@x.org" "u1@x.org", .remove "g2@x.org" "u1@x.org"] := by
  decide

theorem auditRows_length (fetch : String → Except Unit (List Member))
    (emails : List String) :
    (auditRows fetch emails).length =
      (emails.map (groupContribution fetch)).sum := by
  induction emails with
  | nil => rfl
  | cons g gs ih =>
    show ((if validGroup g then
        match fetch g with
        | .ok ms => ms.map (memberRow g)
        | .error _ => []
      else []) ++ auditRows fetch gs).length = _
    rw [List.length_append, ih, List.map_cons, List.sum_cons]
    congr 1
    unfold groupContribution
    by_cases hv : validGroup g
    · rw [if_pos hv, if_pos hv]
      cases hf : fetch g with
      | ok ms => rw [List.length_map]
      | error e => rfl
    · rw [if_neg hv, if_neg hv]
      rfl

theorem memberRow_mem_auditRows (fetch : String → Except Unit (List Member))
    {emails : List String} {g : String} {ms : List Member} {m : Member}
    (hg : g ∈ emails) (hv : validGroup g = true) (hf : fetch g = .ok ms)
    (hm : m ∈ ms) : memberRow g m ∈ auditRows fetch emails := by
  induction emails with
  | nil => cases hg
  | cons g₀ gs ih =>
    show memberRow g m ∈ (if validGroup g₀ then
        match fetch g₀ with
        | .ok ms' => ms'.map (memberRow g₀)
        | .error _ => []
      else []) ++ auditRows fetch gs
    rcases List.mem_cons.1 hg with h | h
    · subst h
      refine List.mem_append_left _ ?_
      rw [if_pos hv, hf]
      exact List.mem_map_of_mem _ hm
    · exact List.mem_append_right _ (ih h)

/-- C7. Auditor report size and partial-failure tolerance: the report has
one header row plus, for each header cell, that cell's contribution — its
member count when it is email-shaped and its fetch succeeds, zero
otherwise; and every member row of any successfully fetched email-shaped
group is present in the report, whatever happens to the other groups. -/
theorem claim_C7 (fetch : String → Except Unit (List Member))
    (emails : List String) :
    (auditData fetch emails).length =
        1 + (emails.map (groupContribution fetch)).sum
    ∧ ∀ g ∈ emails, ∀ ms : List Member, validGroup g = true → fetch g = .ok ms →
        ∀ m ∈ ms, memberRow g m ∈ auditData fetch emails := by
  constructor
  · show (auditHeader :: auditRows fetch emails).length = _
    rw [List.length_cons, auditRows_length]
    omega
  · intro g hg ms hv hf m hm
    exact List.mem_cons_of_mem _ (memberRow_mem_auditRows fetch hg hv hf hm)

/-- C8. Auditor overwrite is destructive and unconditional: after the
clear-then-write step, every cell of the destination range `AUDIT!A1:Z1000`
holds exactly the current run's grid value (the empty string where the grid
has no cell) — the prior sheet content does not appear on the right-hand
side at all. -/
theorem claim_C8 (s : Sheet) (fetch : String → Except Unit (List Member))
    (emails : List String) (r c : Nat) (hr : r < 1000) (hc : c < 26) :
    auditWrite s (auditData fetch emails) r c =
      ((auditData fetch emails).getD r []).getD c "" := by
  unfold auditWrite writeAt clearRange
  by_cases h : c < ((auditData fetch emails).getD r []).length
  · rw [if_pos h]
  · rw [if_neg h, if_pos (⟨hr, hc⟩ : r < 1000 ∧ c < 26),
      List.getD_eq_default _ _ (by omega)]

/-! ## Action accounting for one active row -/

theorem desiredGroups_subset {rows : List (List String)} {r : List String}
    (hr : r ∈ rows) {g : String} (hg : g ∈ desiredGroups r) :
    g ∈ allKnownGroups rows :=
  List.mem_dedup.2 (List.mem_flatMap.2 ⟨r, hr, List.mem_dedup.1 hg⟩)

theorem nodup_desiredGroups (r : List String) : (desiredGroups r).Nodup :=
  List.nodup_dedup _

theorem nodup_allKnownGroups (rows : List (List String)) :
    (allKnownGroups rows).Nodup :=
  List.nodup_dedup _

theorem countP_decide_eq_of_nodup {l : List String} (hl : l.Nodup)
    (g : String) :
    (l.countP fun x => decide (x = g)) = if g ∈ l then 1 else 0 := by
  induction l with
  | nil => rfl
  | cons x t ih =>
    obtain ⟨hx, ht⟩ := List.nodup_cons.1 hl
    rw [List.countP_cons, ih ht]
    by_cases hxg : x = g
    · subst hxg
      simp [hx]
    · simp [hxg, Ne.symm hxg]

/-- C9. For every active row with a non-empty user identifier: no group
gets both an ADD and a REMOVE of that user, a group gets one of the two
exactly when it is in the discovered group universe, each known group's
pair is targeted by exactly one call of that row, and every ADD of the row
is issued before any of its REMOVEs. -/
theorem claim_C9 (rows : List (List String)) (r : List String)
    (hr : r ∈ rows) (hu : rowUser r ≠ "") (hs : rowStatus r = "active") :
    (∀ g : String,
      ¬(Action.add g (rowUser r) ∈ rowActions (allKnownGroups rows) r ∧
        Action.remove g (rowUser r) ∈ rowActions (allKnownGroups rows) r))
    ∧ (∀ g : String,
        (Action.add g (rowUser r) ∈ rowActions (allKnownGroups rows) r ∨
          Action.remove g (rowUser r) ∈ rowActions (allKnownGroups rows) r) ↔
        g ∈ allKnownGroups rows)
    ∧ (∀ g ∈ allKnownGroups rows,
        (rowActions (allKnownGroups rows) r).countP
          (fun a => decide (a.pair = (g, rowUser r))) = 1)
    ∧ rowActions (allKnownGroups rows) r =
        (rowActions (allKnownGroups rows) r).filter (fun a => a.isAdd) ++
          (rowActions (allKnownGroups rows) r).filter fun a => !a.isAdd := by
  have hne : rowStatus r ≠ "inactive" := by
    rw [hs]
    decide
  have heq : rowActions (allKnownGroups rows) r =
      ((desiredGroups r).map fun g => Action.add g (rowUser r)) ++
        (((allKnownGroups rows).filter fun g =>
          decide (g ∉ desiredGroups r)).map fun g =>
            Action.remove g (rowUser r)) := by
    unfold rowActions
    rw [if_neg hu, if_neg hne, if_pos hs]
  have memAdd : ∀ g : String,
      Action.add g (rowUser r) ∈ rowActions (allKnownGroups rows) r ↔
        g ∈ desiredGroups r := by
    intro g
    rw [heq]
    simp [List.mem_append, List.mem_map]
  have memRemove : ∀ g : String,
      Action.remove g (rowUser r) ∈ rowActions (allKnownGroups rows) r ↔
        g ∈ allKnownGroups rows ∧ g ∉ desiredGroups r := by
    intro g
    rw [heq]
    simp [List.mem_append, List.mem_map, List.mem_filter]
  refine ⟨?_, ?_, ?_, ?_⟩
  · rintro g ⟨ha, hrm⟩
    exact ((memRemove g).1 hrm).2 ((memAdd g).1 ha)
  · intro g
    constructor
    · rintro (ha | hrm)
      · exact desiredGroups_subset hr ((memAdd g).1 ha)
      · exact ((memRemove g).1 hrm).1
    · intro hk
      by_cases hd : g ∈ desiredGroups r
      · exact Or.inl ((memAdd g).2 hd)
      · exact Or.inr ((memRemove g).2 ⟨hk, hd⟩)
  · intro g hg
    rw [heq, List.countP_append, List.countP_map, List.countP_map]
    have c1 : List.countP
        ((fun a => decide (a.pair = (g, rowUser r))) ∘
          fun g' => Action.add g' (rowUser r)) (desiredGroups r) =
        List.countP (fun g' => decide (g' = g)) (desiredGroups r) :=
      List.countP_congr fun x _ => by
        simp [Function.comp, Action.pair, Prod.ext_iff]
    have c2 : List.countP
        ((fun a => decide (a.pair = (g, rowUser r))) ∘
          fun g' => Action.remove g' (rowUser r))
          ((allKnownGroups rows).filter fun g' =>
            decide (g' ∉ desiredGroups r)) =
        List.countP (fun g' => decide (g' = g))
          ((allKnownGroups rows).filter fun g' =>
            decide (g' ∉ desiredGroups r)) :=
      List.countP_congr fun x _ => by
        simp [Function.comp, Action.pair, Prod.ext_iff]
    rw [c1, c2, countP_decide_eq_of_nodup (nodup_desiredGroups r) g,
      countP_decide_eq_of_nodup
        (List.Nodup.filter _ (nodup_allKnownGroups rows)) g]
    have hfm : (g ∈ (allKnownGroups rows).filter fun g' =>
        decide (g' ∉ desiredGroups r)) ↔
        g ∈ allKnownGroups rows ∧ g ∉ desiredGroups r := by
      simp [List.mem_filter]
    by_cases hd : g ∈ desiredGroups r
    · rw [if_pos hd, if_neg fun hx => (hfm.1 hx).2 hd]
    · rw [if_neg hd, if_pos (hfm.2 ⟨hg, hd⟩)]
  · have f1 : (((desiredGroups r).map fun g =>
        Action.add g (rowUser r)).filter fun a => a.isAdd) =
        (desiredGroups r).map fun g => Action.add g (rowUser r) :=
      List.filter_eq_self.2 fun a ha => by
        obtain ⟨x, _, rfl⟩ := List.mem_map.1 ha
        rfl
    have f2 : ((((allKnownGroups rows).filter fun g =>
        decide (g ∉ desiredGroups r)).map fun g =>
          Action.remove g (rowUser r)).filter fun a => a.isAdd) = [] :=
      List.filter_eq_nil_iff.2 fun a ha => by
        obtain ⟨x, _, rfl⟩ := List.mem_map.1 ha
        simp [Action.isAdd]
    have f3 : (((desiredGroups r).map fun g =>
        Action.add g (rowUser r)).filter fun a => !a.isAdd) = [] :=
      List.filter_eq_nil_iff.2 fun a ha => by
        obtain ⟨x, _, rfl⟩ := List.mem_map.1 ha
        simp [Action.isAdd]
    have f4 : ((((allKnownGroups rows).filter fun g =>
        decide (g ∉ desiredGroups r)).map fun g =>
          Action.remove g (rowUser r)).filter fun a => !a.isAdd) =
        ((allKnownGroups rows).filter fun g =>
          decide (g ∉ desiredGroups r)).map fun g =>
            Action.remove g (rowUser r) :=
      List.filter_eq_self.2 fun a ha => by
        obtain ⟨x, _, rfl⟩ := List.mem_map.1 ha
        rfl
    rw [heq, List.filter_append, List.filter_append, f1, f2, f3, f4,
      List.append_nil, List.nil_append]

theorem auditRows_row_length (fetch : String → Except Unit (List Member))
    (emails : List String) :
    ∀ row ∈ auditRows fetch emails, row.length = 4 := by
  induction emails with
  | nil => intro row h; cases h
  | cons g gs ih =>
    intro row h
    rcases List.mem_append.1 h with h | h
    · by_cases hv : validGroup g
      · rw [if_pos hv] at h
        cases hf : fetch g with
        | ok ms =>
          rw [hf] at h
          obtain ⟨m, _, rfl⟩ := List.mem_map.1 h
          rfl
        | error e =>
          rw [hf] at h
          cases h
      · rw [if_neg hv] at h
        cases h
    · exact ih row h

/-- C10. Every grid the Auditor writes is non-empty, starts with the exact
header `["Group Email", "Member Email", "Role", "Type"]` (also when no
header cell is email-shaped or when every fetch fails), and every member
row has exactly four cells, its optional fields defaulted to the empty
string by construction. -/
theorem claim_C10 (fetch : String → Except Unit (List Member))
    (emails : List String) :
    auditData fetch emails ≠ []
    ∧ (auditData fetch emails).head? = some auditHeader
    ∧ ∀ row ∈ (auditData fetch emails).tail, row.length = 4 := by
  refine ⟨?_, rfl, ?_⟩
  · show auditHeader :: auditRows fetch emails ≠ []
    exact List.cons_ne_nil _ _
  · show ∀ row ∈ auditRows fetch emails, row.length = 4
    exact auditRows_row_length fetch emails

/-! ## Concrete fixtures, counterexamples and witnesses -/

/-- An active-status row (status cell with spacing and capitals). -/
def rowActive : List String := ["ua@x.org", " Active ", "g1@x.org", "", "g2@x.org"]

/-- An inactive-status row. -/
def rowInactive : List String := ["ui@x.org", "inactive", "g3@x.org"]

/-- A row with a present but unrecognized status. -/
def rowPending : List String := ["up@x.org", "pending", "g4@x.org"]

/-- A row with no status cell at all. -/
def rowNoStatus : List String := ["u1@x.org"]

/-- A three-user table exercising all three status shapes. -/
def rowsA : List (List String) := [rowActive, rowInactive, rowPending]

/-- An initial directory state: `up@x.org` is a member of `g4@x.org`. -/
def stA : DirState := fun p => decide (p = ("g4@x.org", "up@x.org"))

/-- A ProtectedSet naming none of the fixture users. -/
def protA : List String := ["admin@x.org"]

/-- A table whose only user is protected and inactive. -/
def rowsP : List (List String) := [["admin@x.org", "inactive", "gp@x.org"]]

/-- A one-row table with an unrecognized status. -/
def rowPendingOnly : List String := ["u@x.org", "pending", "g@x.org"]

/-- The table holding only `rowPendingOnly`. -/
def rowsPend : List (List String) := [rowPendingOnly]

/-- A directory state in which everyone is a member of everything. -/
def stFull : DirState := fun _ => true

/-- A table with an absent-status row and an unrecognized-status row. -/
def rowsC3 : List (List String) := [rowNoStatus, rowPending]

/-- An oracle failing every call with HTTP 500. -/
def oracleFail : Action → ApiResult := fun _ => .http 500

/-- A member record with every optional field present except `type`. -/
def memberA : Member := ⟨some "m1@x.org", some "MEMBER", none⟩

/-- A member record with every optional field absent. -/
def memberB : Member := ⟨none, none, none⟩

/-- A fetch oracle: `ga@x.org` has two members, `gb@x.org` fails. -/
def fetchW : String → Except Unit (List Member) := fun g =>
  if g = "ga@x.org" then .ok [memberA, memberB]
  else if g = "gb@x.org" then .error ()
  else .ok []

/-- An audit header row with one invalid cell and one failing group. -/
def emailsW : List String := ["ga@x.org", "notanemail", "gb@x.org"]

/-- A fetch oracle returning no members for any group. -/
def fetchNone : String → Except Unit (List Member) := fun _ => .ok []

/-- A stale AUDIT sheet: every cell holds prior data. -/
def sheetOld : Sheet := fun _ _ => "stale"

/-- C1 counterexample: a row with a non-empty user and the present but
unrecognized status "pending"; `g@x.org` is a known group and the user is
not protected, yet after the run the user is still a member of it — the
run issued no action for the row, so the claim's removal case for
absent/unrecognized statuses fails on the code. -/
theorem claim_C1_counterexample :
    rowUser rowPendingOnly ≠ ""
    ∧ rowStatus rowPendingOnly ≠ "active"
    ∧ rowStatus rowPendingOnly ≠ "inactive"
    ∧ "g@x.org" ∈ allKnownGroups rowsPend
    ∧ rowUser rowPendingOnly ∉ ([] : List String)
    ∧ applyActions stFull (issuedActions [] rowsPend)
        ("g@x.org", rowUser rowPendingOnly) = true := by
  decide

/-- C3 counterexample: same row — the user identifier is non-empty, the
status cell is present but unrecognized, `g@x.org` is in the known-group
universe, and the run issues no action at all, in particular no REMOVE. -/
theorem claim_C3_counterexample :
    rowUser rowPendingOnly ≠ ""
    ∧ rowStatus rowPendingOnly ≠ "active"
    ∧ rowStatus rowPendingOnly ≠ "inactive"
    ∧ "g@x.org" ∈ allKnownGroups rowsPend
    ∧ syncActions rowsPend = [] := by
  decide

/-- Witness for C1 at the three fixture rows. -/
theorem claim_C1_witness :
    ((allKnownGroups rowsA).filter
        (fun g => applyActions stA (issuedActions protA rowsA) (g, rowUser rowActive)) =
      (allKnownGroups rowsA).filter fun g => decide (g ∈ desiredGroups rowActive))
    ∧ ((allKnownGroups rowsA).filter
        (fun g => applyActions stA (issuedActions protA rowsA) (g, rowUser rowInactive)) = [])
    ∧ applyActions stA (issuedActions protA rowsA) ("g4@x.org", rowUser rowPending) =
        stA ("g4@x.org", rowUser rowPending) :=
  ⟨(claim_C1 protA rowsA rowActive stA (by decide) (by decide) (by decide)
      (by decide)).1 (by decide),
   (claim_C1 protA rowsA rowInactive stA (by decide) (by decide) (by decide)
      (by decide)).2.1 (by decide),
   (claim_C1 protA rowsA rowPending stA (by decide) (by decide) (by decide)
      (by decide)).2.2 (by decide) (by decide) "g4@x.org"⟩

/-- Witness for C2: a protected inactive user; no REMOVE is issued, and
the skip report corresponds to the suppressed REMOVE. -/
theorem claim_C2_witness :
    Event.issue (.remove "gp@x.org" "admin@x.org") ∉ syncEvents protA rowsP
    ∧ (Event.skipProtected "gp@x.org" "admin@x.org" ∈ syncEvents protA rowsP ↔
        Action.remove "gp@x.org" "admin@x.org" ∈ syncActions rowsP) :=
  claim_C2 protA rowsP "gp@x.org" "admin@x.org" (by decide)

/-- Witness for C3: the absent-status row is removed from the known group,
the unrecognized-status row produces nothing. -/
theorem claim_C3_witness :
    Action.remove "g4@x.org" (rowUser rowNoStatus) ∈ syncActions rowsC3
    ∧ rowActions (allKnownGroups rowsC3) rowPending = [] :=
  ⟨(claim_C3 rowsC3 rowNoStatus (by decide) (by decide)).1 (by decide)
      "g4@x.org" (by decide),
   (claim_C3 rowsC3 rowPending (by decide) (by decide)).2 (by decide) (by decide)⟩

/-- Witness for C5: with every call failing with HTTP 500, the run still
makes every listed call, each entry reflecting only its own outcome. -/
theorem claim_C5_witness :
    ((runSync oracleFail rowsA).map Prod.fst = syncActions rowsA)
    ∧ ((Action.add "g1@x.org" "ua@x.org", LogLine.otherError 500) :
        Action × LogLine).2 =
        callPair oracleFail
          ((Action.add "g1@x.org" "ua@x.org", LogLine.otherError 500) :
            Action × LogLine).1
    ∧ safe_add (.http 409) = .alreadyMember
    ∧ safe_remove (.http 404) = .notMember
    ∧ LogLine.isExpectedSuccess .alreadyMember = true
    ∧ LogLine.isExpectedSuccess .notMember = true :=
  ⟨(claim_C5 oracleFail rowsA).1,
   (claim_C5 oracleFail rowsA).2.1
     (Action.add "g1@x.org" "ua@x.org", LogLine.otherError 500) (by decide),
   (claim_C5 oracleFail rowsA).2.2.1,
   (claim_C5 oracleFail rowsA).2.2.2.1,
   (claim_C5 oracleFail rowsA).2.2.2.2.1,
   (claim_C5 oracleFail rowsA).2.2.2.2.2⟩

/-- Witness for C7: one valid group with two members, one invalid header
cell, one failing group. -/
theorem claim_C7_witness :
    ((auditData fetchW emailsW).length =
      1 + (emailsW.map (groupContribution fetchW)).sum)
    ∧ memberRow "ga@x.org" memberA ∈ auditData fetchW emailsW :=
  ⟨(claim_C7 fetchW emailsW).1,
   (claim_C7 fetchW emailsW).2 "ga@x.org" (by decide) [memberA, memberB]
     (by decide) (by rfl) memberA (by decide)⟩

/-- Witness for C8: a zero-group run erases a stale cell of the
destination range. -/
theorem claim_C8_witness :
    (auditWrite sheetOld (auditData fetchNone []) 5 0 =
      ((auditData fetchNone []).getD 5 []).getD 0 "")
    ∧ ((auditData fetchNone []).getD 5 []).getD 0 "" = "" :=
  ⟨claim_C8 sheetOld fetchNone [] 5 0 (by decide) (by decide), by decide⟩

/-- Witness for C9 at the fixture's active row. -/
theorem claim_C9_witness :
    (¬(Action.add "g3@x.org" (rowUser rowActive) ∈
          rowActions (allKnownGroups rowsA) rowActive ∧
        Action.remove "g3@x.org" (rowUser rowActive) ∈
          rowActions (allKnownGroups rowsA) rowActive))
    ∧ ((Action.add "g3@x.org" (rowUser rowActive) ∈
          rowActions (allKnownGroups rowsA) rowActive ∨
        Action.remove "g3@x.org" (rowUser rowActive) ∈
          rowActions (allKnownGroups rowsA) rowActive) ↔
        "g3@x.org" ∈ allKnownGroups rowsA)
    ∧ ((rowActions (allKnownGroups rowsA) rowActive).countP
        (fun a => decide (a.pair = ("g1@x.org", rowUser rowActive))) = 1)
    ∧ rowActions (allKnownGroups rowsA) rowActive =
        (rowActions (allKnownGroups rowsA) rowActive).filter
            (fun a => a.isAdd) ++
          (rowActions (allKnownGroups rowsA) rowActive).filter
            fun a => !a.isAdd :=
  ⟨(claim_C9 rowsA rowActive (by decide) (by decide) (by decide)).1 "g3@x.org",
   (claim_C9 rowsA rowActive (by decide) (by decide) (by decide)).2.1 "g3@x.org",
   (claim_C9 rowsA rowActive (by decide) (by decide) (by decide)).2.2.1
     "g1@x.org" (by decide),
   (claim_C9 rowsA rowActive (by decide) (by decide) (by decide)).2.2.2⟩

/-- Witness for C10: the written grid is non-empty, headed, and its member
row for the all-optional-fields-missing member has exactly four cells. -/
theorem claim_C10_witness :
    auditData fetchW emailsW ≠ []
    ∧ (auditData fetchW emailsW).head? = some auditHeader
    ∧ (["ga@x.org", "", "", ""] : List String).length = 4 :=
  ⟨(claim_C10 fetchW emailsW).1, (claim_C10 fetchW emailsW).2.1,
   (claim_C10 fetchW emailsW).2.2 ["ga@x.org", "", "", ""] (by decide)⟩

end ContactSync
